import Mathlib

/-!
Shallow embedding of the clause-resolution GNN data pipeline
(`train_model_GNN.py`): literal parsing, node feature encoding, graph
building, dataset filtering and vocabulary construction, and the
accuracy computation of the evaluation loop.

Python strings are modelled as `List Char` (Unicode code points), machine
floats that only ever hold small integers as `Int`, Python `None` as
`Option`, and a raised exception as `Except.error`.
-/

namespace ResolutionGNN

/-! ### Python string helpers -/

/-- Whitespace test used by `str.strip()` and the `\s` regex class. -/
def pyWs (c : Char) : Bool := c.isWhitespace

/-- `s.strip()`: drop whitespace from both ends. -/
def pyStrip (s : List Char) : List Char :=
  ((s.dropWhile pyWs).reverse.dropWhile pyWs).reverse

/-- `s.split(c)` for a one-character separator: always returns at least
one (possibly empty) piece, and keeps empty pieces between separators. -/
def splitOnChar (c : Char) (s : List Char) : List (List Char) :=
  match s with
  | [] => [[]]
  | x :: xs =>
    match splitOnChar c xs with
    | [] => [[]]
    | h :: t => if x = c then [] :: h :: t else (x :: h) :: t

/-- `l[:k]` for a possibly negative Python slice bound `k`. -/
def pySliceTo {α : Type} (k : Int) (l : List α) : List α :=
  if 0 ≤ k then l.take k.toNat else l.take ((l.length : Int) + k).toNat

/-! ### Literal parsing (`parse_literal`, lines 16-25) -/

/-- The test `core.startswith("¬") or core.startswith("~")`. -/
def negMarker (core : List Char) : Bool :=
  match core with
  | c :: _ => c = '¬' || c = '~'
  | [] => false

/-- The `core` string of `parse_literal` lines 18-21: stripped, with a
leading negation marker removed and re-stripped. -/
def parse_core (literal : List Char) : List Char :=
  let core0 := pyStrip literal
  if negMarker core0 then pyStrip (core0.drop 1) else core0

/-- The argument list of `parse_literal` lines 22-24: `pred` is the part of
`core` before the first `(`, `inside` is `core[len(pred)+1:-1]` stripped,
and the arguments are the comma-split, stripped pieces of `inside`. -/
def parse_args (core : List Char) : List (List Char) :=
  let pred := core.takeWhile (fun c => c ≠ '(')
  let inside := pyStrip ((core.take (core.length - 1)).drop (pred.length + 1))
  if inside = [] then [] else (splitOnChar ',' inside).map pyStrip

/-- `parse_literal`: sign from an optional leading `¬`/`~` marker, predicate
name up to the first `(`, arguments comma-split from `core[len(pred)+1:-1]`. -/
def parse_literal (literal : List Char) : Int × List Char × List (List Char) :=
  ((if negMarker (pyStrip literal) then -1 else 1 : Int),
   (parse_core literal).takeWhile (fun c => c ≠ '('),
   parse_args (parse_core literal))

/-! ### Node feature encoding (`embed_literal`, lines 28-48) -/

/-- Truthiness-and-uppercase test `arg and arg[0].isupper()`. -/
def firstUpper (arg : List Char) : Bool :=
  match arg with
  | c :: _ => c.isUpper
  | [] => false

/-- Argument type code: 2 = function term, 0 = variable, 1 = constant. -/
def argType (arg : List Char) : Int :=
  if arg.contains '(' && (arg.getLast? == some ')') then 2
  else if firstUpper arg then 0
  else 1

/-- `embed_literal`: `[sign bit, predicate id] ++ type codes of the first
max_args arguments ++ padding of -1`. -/
def embed_literal (literal : List Char) (predicate_to_idx : String → Nat)
    (max_args : Nat) : List Int :=
  let spa := parse_literal literal
  let arg_types := (spa.2.2.take max_args).map argType
  [if 0 < spa.1 then (0 : Int) else 1,
   (predicate_to_idx (String.mk spa.2.1) : Int)]
    ++ arg_types ++ List.replicate (max_args - arg_types.length) (-1)

/-! ### Data model -/

/-- A resolvable-pair record; the code reads exactly these four fields,
each of which may be JSON `null`. -/
structure Pair where
  clauseA_index : Option Int
  literalA_index : Option Int
  clauseB_index : Option Int
  literalB_index : Option Int
deriving DecidableEq

/-- A clause record `(clause_id, clause_type, literals)`. -/
structure Clause where
  cid : String
  ctype : String
  lits : List String
deriving DecidableEq

/-- One loaded example. `best_pair = none` covers both an absent key and an
explicit JSON `null`; likewise for `best_pair_index`. -/
structure Example where
  problem_id : String
  clauses : List Clause
  resolvable_pairs : List Pair
  best_pair : Option Pair
  best_pair_index : Option Int
deriving DecidableEq

/-- Result of `build_graph_from_example`: node feature matrix, edge list
(one pair per column of `edge_index`), edge labels. -/
structure GraphData where
  x : List (List Int)
  edge_index : List (Nat × Nat)
  y : List Nat
deriving DecidableEq

/-! ### Best-pair resolution (`_extract_best_pair`, lines 54-64) -/

/-- `_extract_best_pair`: prefer the inline `best_pair`; else dereference
`best_pair_index` when `0 <= idx < len(resolvable_pairs)`; else `None`. -/
def extract_best_pair (ex : Example) : Option Pair :=
  match ex.best_pair with
  | some bp => some bp
  | none =>
    match ex.best_pair_index with
    | some idx =>
      if 0 ≤ idx ∧ idx < (ex.resolvable_pairs.length : Int) then
        ex.resolvable_pairs[idx.toNat]?
      else none
    | none => none

/-! ### Graph builder (`build_graph_from_example`, lines 67-124) -/

/-- Number of literal nodes contributed by the first `n` clauses. -/
def clauseOffset (clauses : List Clause) (n : Nat) : Nat :=
  ((clauses.take n).map (fun c => c.lits.length)).sum

/-- Membership-plus-value of the `node_map` dict built by clause-major,
literal-minor enumeration: defined exactly on in-range non-null keys. -/
def nodeMapFind (clauses : List Clause) : Option Int × Option Int → Option Nat
  | (some i, some a) =>
    if 0 ≤ i ∧ 0 ≤ a then
      match clauses[i.toNat]? with
      | some c =>
        if a.toNat < c.lits.length then
          some (clauseOffset clauses i.toNat + a.toNat)
        else none
      | none => none
    else none
  | _ => none

/-- The `is_best` test of lines 99-107: the best pair exists, its literal
indices are non-null, and all four coordinates match. -/
def isBest (best : Option Pair) (p : Pair) : Bool :=
  match best with
  | none => false
  | some bp =>
    bp.literalA_index.isSome && bp.literalB_index.isSome &&
    decide (p.clauseA_index = bp.clauseA_index) &&
    decide (p.literalA_index = bp.literalA_index) &&
    decide (p.clauseB_index = bp.clauseB_index) &&
    decide (p.literalB_index = bp.literalB_index)

/-- One iteration of the edge loop (lines 84-108): `none` when the pair is
skipped as malformed, otherwise the directed edge and its label. -/
def pairEdgeLabel (clauses : List Clause) (best : Option Pair) (p : Pair) :
    Option ((Nat × Nat) × Nat) :=
  if p.literalA_index = none ∨ p.literalB_index = none then none
  else
    match nodeMapFind clauses (p.clauseA_index, p.literalA_index),
          nodeMapFind clauses (p.clauseB_index, p.literalB_index) with
    | some src, some dst => some ((src, dst), if isBest best p then 1 else 0)
    | _, _ => none

/-- Insert into a sorted list, keeping `le`-order. -/
def insertSorted {α : Type} (le : α → α → Bool) (x : α) : List α → List α
  | [] => [x]
  | y :: ys => if le x y then x :: y :: ys else y :: insertSorted le x ys

/-- Insertion sort by a boolean order. -/
def sortBy {α : Type} (le : α → α → Bool) (l : List α) : List α :=
  l.foldr (insertSorted le) []

/-- Remove adjacent duplicates (global duplicates, on a sorted list). -/
def dedupAdj {α : Type} [DecidableEq α] : List α → List α
  | [] => []
  | [x] => [x]
  | x :: y :: r => if x = y then dedupAdj (y :: r) else x :: dedupAdj (y :: r)

/-- Row-major order on edges, the sort key used by PyG's `coalesce`. -/
def edgeLe (a b : Nat × Nat) : Bool :=
  a.1 < b.1 || (a.1 == b.1 && a.2 ≤ b.2)

/-- Modelled from the documented behaviour of
`torch_geometric.utils.to_undirected` (library code, not part of src/):
append the reversed edges, then coalesce, i.e. sort all edges in row-major
order and remove duplicates. -/
def to_undirected (edges : List (Nat × Nat)) : List (Nat × Nat) :=
  dedupAdj (sortBy edgeLe (edges ++ edges.map (fun e => (e.2, e.1))))

/-- Flat list of literal strings in clause-major, literal-minor order. -/
def nodeLits (clauses : List Clause) : List String :=
  (clauses.map (fun c => c.lits)).flatten

/-- The edge/label rows produced by the loop of lines 84-108, in
`resolvable_pairs` order. -/
def edgeLabelList (ex : Example) : List ((Nat × Nat) × Nat) :=
  ex.resolvable_pairs.filterMap
    (pairEdgeLabel ex.clauses (extract_best_pair ex))

/-- The directed forward edges (`edge_src`/`edge_dst` columns). -/
def fwdEdges (ex : Example) : List (Nat × Nat) :=
  (edgeLabelList ex).map (fun q => q.1)

/-- `build_graph_from_example`. `Except.error` models the exception raised
by `torch.stack` on an empty node-feature list; `Except.ok none` models the
`return None` for an example with zero surviving edges. -/
def build_graph_from_example (ex : Example) (predicate_to_idx : String → Nat)
    (max_args : Nat) : Except String (Option GraphData) :=
  let feats := (nodeLits ex.clauses).map
    (fun lit => embed_literal lit.data predicate_to_idx max_args)
  if feats = [] then Except.error "stack expects a non-empty TensorList"
  else
    let el := edgeLabelList ex
    let edges := el.map (fun q => q.1)
    let labels := el.map (fun q => q.2)
    if edges = [] then Except.ok none
    else
      let ei := to_undirected edges
      let added : Int := (ei.length : Int) - (edges.length : Int)
      let y := labels ++ pySliceTo added labels
      Except.ok (some ⟨feats, ei, y⟩)

/-! ### Dataset construction (`ClauseResolutionDataset.__init__`, lines 146-193) -/

/-- The list built by the filter loop of lines 168-174. -/
def dataset_filtered (loaded : List Example) : List Example :=
  loaded.filter (fun ex => (extract_best_pair ex).isSome)

/-- The final value of `self.examples` after `__init__`: line 176 assigns
the filtered list, but line 193 reassigns the original unfiltered list, so
the filter's result is discarded. -/
def dataset_examples (loaded : List Example) : List Example :=
  loaded

/-- `get(idx)` hands `self.examples[idx]` to the graph builder. -/
def dataset_get (loaded : List Example) (predicate_to_idx : String → Nat)
    (max_args : Nat) (idx : Nat) : Option (Except String (Option GraphData)) :=
  ((dataset_examples loaded)[idx]?).map
    (fun ex => build_graph_from_example ex predicate_to_idx max_args)

/-! ### Predicate vocabulary (lines 178-191) -/

/-- `[A-Za-z0-9_]` (the regex word class is explicitly ASCII here). -/
def wordChar (c : Char) : Bool := c.isAlphanum || c = '_'

/-- `re.match(r'\s*[~¬]?\s*([A-Za-z0-9_]+)\(', lit)`, returning the
captured predicate name. -/
def pyPredMatch (lit : String) : Option String :=
  let s1 := lit.data.dropWhile pyWs
  let s2 :=
    match s1 with
    | c :: rest => if c = '~' || c = '¬' then rest else s1
    | [] => []
  let s3 := s2.dropWhile pyWs
  let name := s3.takeWhile wordChar
  match name, s3.drop name.length with
  | _ :: _, '(' :: _ => some (String.mk name)
  | _, _ => none

/-- Code-point lexicographic comparison of character lists, the order
Python's `sorted` uses on strings. -/
def charListLe : List Char → List Char → Bool
  | [], _ => true
  | _ :: _, [] => false
  | x :: xs, y :: ys => if x = y then charListLe xs ys else decide (x < y)

/-- Python's `<=` on strings. -/
def strLe (a b : String) : Bool := charListLe a.data b.data

/-- `sorted(seen)` over the set of predicate names auto-collected from all
literals of all (unfiltered) loaded examples. -/
def collected_preds (examples : List Example) : List String :=
  sortBy strLe
    ((((examples.map (fun ex => nodeLits ex.clauses)).flatten).filterMap
        pyPredMatch).dedup)

/-- The list the vocabulary is built from: `if predicate_list:` is Python
truthiness, so an explicit empty list falls through to auto-collection,
exactly like an absent list. -/
def chosen_pred_list (predicate_list : Option (List String))
    (examples : List Example) : List String :=
  match predicate_list with
  | some l => if l ≠ [] then l else collected_preds examples
  | none => collected_preds examples

/-- One step of `{p: i + 1 for i, p in enumerate(pred_list)}`: a later
occurrence of the same name overwrites an earlier one. -/
def vocabStep (f : String → Nat) (ip : Nat × String) : String → Nat :=
  fun q => if q = ip.2 then ip.1 + 1 else f q

/-- The dict comprehension of line 191, read through `.get(p, 0)`. -/
def dict_of_list (pred_list : List String) : String → Nat :=
  pred_list.enum.foldl vocabStep (fun _ => 0)

/-- `self.predicate_to_idx` as a total lookup with default 0. -/
def predicate_to_idx (predicate_list : Option (List String))
    (examples : List Example) : String → Nat :=
  dict_of_list (chosen_pred_list predicate_list examples)

/-! ### Evaluation accuracy (`evaluate`, lines 319-330) -/

/-- One loader iteration: a batch with no labeled edges is skipped,
otherwise `correct` gains the number of positions where the model's argmax
prediction equals the label and `total` gains the batch's label count. -/
def evalStep (acc : Nat × Nat) (batch : List (Nat × Nat)) : Nat × Nat :=
  if batch.length = 0 then acc
  else (acc.1 + (batch.filter (fun pl => pl.1 == pl.2)).length,
        acc.2 + batch.length)

/-- Modelled from `evaluate`: each batch is the list of
(argmax prediction, label) pairs of its labeled edges; the predictions are
abstract inputs since the model is a learned function. Returns
`correct / total if total else 0.0`. -/
def evaluate (batches : List (List (Nat × Nat))) : ℚ :=
  let ct := batches.foldl evalStep (0, 0)
  if ct.2 ≠ 0 then (ct.1 : ℚ) / (ct.2 : ℚ) else 0

/-! ### Derived views and concrete instances used in the statements -/

/-- The labeled edge set of a built graph: column `k` of `edge_index`
paired with `y[k]`. -/
def labeledEdges (g : GraphData) : List ((Nat × Nat) × Nat) :=
  g.edge_index.zip g.y

/-- A fully populated pair record. -/
def mkPair (i a j b : Int) : Pair :=
  ⟨some i, some a, some j, some b⟩

/-- The everywhere-zero vocabulary (an empty predicate dictionary). -/
def pxZero : String → Nat := fun _ => 0

/-- An example with no inline best pair and a null index. -/
def exC1 : Example := ⟨"p1", [⟨"c0", "axiom", ["p(a)"]⟩], [], none, none⟩

/-- Four literals in one clause; pairs give the directed edges (2,3) and
(1,0), the latter being the best pair. -/
def exC2 : Example :=
  ⟨"p2", [⟨"c0", "axiom", ["p(a)", "p(a)", "p(a)", "p(a)"]⟩],
   [mkPair 0 2 0 3, mkPair 0 1 0 0], none, some 1⟩

/-- The graph the builder returns for `exC2`. -/
def gC2 : GraphData :=
  ⟨[[0, 0, 1, -1, -1], [0, 0, 1, -1, -1], [0, 0, 1, -1, -1], [0, 0, 1, -1, -1]],
   [(0, 1), (1, 0), (2, 3), (3, 2)], [0, 1, 0, 1]⟩

/-- One valid resolvable pair whose two endpoints coincide (a self-loop). -/
def exC3self : Example :=
  ⟨"p3", [⟨"c0", "axiom", ["p(a)"]⟩], [mkPair 0 0 0 0], none, some 0⟩

/-- The graph the builder returns for `exC3self`. -/
def gC3self : GraphData := ⟨[[0, 0, 1, -1, -1]], [(0, 0)], [1]⟩

/-- Two disjoint valid pairs, the first being the best pair. -/
def exC3w : Example :=
  ⟨"p3w", [⟨"c0", "axiom", ["p(a)", "p(a)", "p(a)", "p(a)"]⟩],
   [mkPair 0 0 0 1, mkPair 0 2 0 3], none, some 0⟩

/-- An example resolving its best pair through an in-bounds index. -/
def exC4w : Example := ⟨"p4", [], [mkPair 0 0 0 0], none, some 0⟩

/-- No literals at all, and one (necessarily malformed) pair. -/
def exC5empty : Example :=
  ⟨"p5", [], [⟨some 0, none, some 0, none⟩], none, none⟩

/-- One literal; both pairs malformed (null literal index; dangling
clause reference). -/
def exC5w : Example :=
  ⟨"p5w", [⟨"c0", "axiom", ["p(a)"]⟩],
   [⟨some 0, none, some 0, some 0⟩, mkPair 5 0 0 0], none, none⟩

/-- One example whose only literal is `p(a)`. -/
def exC7 : Example := ⟨"p7", [⟨"c0", "axiom", ["p(a)"]⟩], [], none, none⟩

/-- Literals contributing the auto-collected predicates `p` and `q`. -/
def exC7w : Example :=
  ⟨"p7w", [⟨"c0", "axiom", ["q(a)", "¬p(X)"]⟩], [], none, none⟩

/-- No inline best pair and a negative `best_pair_index`. -/
def exC10w : Example := ⟨"p10", [], [mkPair 0 0 0 0], none, some (-1)⟩

/-! ## Helper lemmas -/

theorem takeWhile_all {α : Type} (p : α → Bool) :
    ∀ (l : List α), (∀ a ∈ l, p a) → l.takeWhile p = l
  | [], _ => rfl
  | x :: xs, h => by
    simp only [List.takeWhile_cons, h x (List.mem_cons_self x xs), if_true]
    rw [takeWhile_all p xs (fun a ha => h a (List.mem_cons_of_mem x ha))]

theorem pyStrip_subset (s : List Char) : pyStrip s ⊆ s := by
  intro a ha
  unfold pyStrip at ha
  rw [List.mem_reverse] at ha
  have ha2 := (List.dropWhile_sublist _).subset ha
  rw [List.mem_reverse] at ha2
  exact (List.dropWhile_sublist _).subset ha2

theorem takeWhile_ne_paren_eq_self {core : List Char} (hc : '(' ∉ core) :
    core.takeWhile (fun c => c ≠ '(') = core :=
  takeWhile_all _ _ (fun a ha => by
    simp only [ne_eq, decide_eq_true_eq]
    exact fun he => hc (he ▸ ha))

theorem parse_args_no_paren (core : List Char) (hc : '(' ∉ core) :
    parse_args core = [] := by
  simp only [parse_args, takeWhile_ne_paren_eq_self hc]
  have hdrop : ((core.take (core.length - 1)).drop (core.length + 1)) = [] :=
    List.drop_eq_nil_of_le (le_trans (List.length_take_le _ _) (by omega))
  rw [hdrop]
  rfl

theorem no_paren_parse_core (s : List Char) (h : '(' ∉ s) :
    '(' ∉ parse_core s := by
  have hsub : '(' ∉ pyStrip s := fun hc => h (pyStrip_subset s hc)
  have hsub2 : '(' ∉ pyStrip ((pyStrip s).drop 1) := fun hc =>
    hsub (List.drop_subset 1 _ (pyStrip_subset _ hc))
  by_cases hn : negMarker (pyStrip s)
  · simp only [parse_core, hn, if_true]; exact hsub2
  · simp only [parse_core, hn, if_false]; exact hsub

/-! ## C9 -/

/-- C9: a literal string containing no `(` parses without failure into a
zero-argument predicate: the predicate is the whole whitespace-stripped
string after removing a leading negation marker, the argument list is
empty, and the sign follows the negation marker. -/
theorem parse_literal_no_paren (s : List Char) (h : '(' ∉ s) :
    (parse_literal s).1 = (if negMarker (pyStrip s) then -1 else 1) ∧
    (parse_literal s).2.1 =
      (if negMarker (pyStrip s) then pyStrip ((pyStrip s).drop 1)
       else pyStrip s) ∧
    (parse_literal s).2.2 = [] := by
  refine ⟨rfl, ?_, parse_args_no_paren _ (no_paren_parse_core s h)⟩
  show (parse_core s).takeWhile (fun c => c ≠ '(') = _
  rw [takeWhile_ne_paren_eq_self (no_paren_parse_core s h)]
  rfl

/-! ## C6 -/

theorem embed_literal_eq (lit : List Char) (pidx : String → Nat) (ma : Nat) :
    embed_literal lit pidx ma =
      (if 0 < (parse_literal lit).1 then (0 : Int) else 1) ::
      ((pidx (String.mk (parse_literal lit).2.1) : Int)) ::
      (((parse_literal lit).2.2.take ma).map argType ++
        List.replicate
          (ma - (((parse_literal lit).2.2.take ma).map argType).length)
          (-1)) := rfl

/-- C6: for every literal string and every `max_args`, the feature vector
has length exactly `2 + max_args`; its first entry is 1 iff the stripped
literal begins with `¬` or `~` and 0 otherwise; slot `2 + k` holds the type
code of argument `k` (2 for an argument containing `(` and ending with `)`,
0 for a non-empty argument starting with an uppercase letter that is not a
function term, 1 otherwise) for each of the first `max_args` arguments; and
every slot beyond the actual argument count holds -1. -/
theorem embed_literal_spec (lit : List Char) (pidx : String → Nat)
    (max_args : Nat) :
    (embed_literal lit pidx max_args).length = 2 + max_args ∧
    (embed_literal lit pidx max_args).head? =
      some (if negMarker (pyStrip lit) then 1 else 0) ∧
    (∀ k arg, k < max_args → ((parse_literal lit).2.2)[k]? = some arg →
       (embed_literal lit pidx max_args)[2 + k]? = some (argType arg)) ∧
    (∀ k, (parse_literal lit).2.2.length ≤ k → k < max_args →
       (embed_literal lit pidx max_args)[2 + k]? = some (-1)) := by
  have he := embed_literal_eq lit pidx max_args
  refine ⟨?_, ?_, ?_, ?_⟩
  · rw [he]
    simp only [List.length_cons, List.length_append, List.length_map,
      List.length_take, List.length_replicate]
    have := min_le_left max_args (parse_literal lit).2.2.length
    omega
  · rw [he, List.head?_cons]
    have h1 : (parse_literal lit).1 =
        (if negMarker (pyStrip lit) then -1 else 1) := rfl
    cases hneg : negMarker (pyStrip lit) <;> simp [h1, hneg]
  · intro k arg hk harg
    have hkl : k < (parse_literal lit).2.2.length := by
      by_contra hn
      rw [List.getElem?_eq_none (by omega)] at harg
      exact Option.noConfusion harg
    rw [he, show 2 + k = (k + 1) + 1 from by omega,
      List.getElem?_cons_succ, List.getElem?_cons_succ,
      List.getElem?_append,
      if_pos (show k <
          (((parse_literal lit).2.2.take max_args).map argType).length by
        simp only [List.length_map, List.length_take]
        omega),
      List.getElem?_map, List.getElem?_take, if_pos hk, harg]
    rfl
  · intro k hka hkm
    have hmin : (((parse_literal lit).2.2.take max_args).map argType).length =
        (parse_literal lit).2.2.length := by
      simp only [List.length_map, List.length_take]
      omega
    rw [he, show 2 + k = (k + 1) + 1 from by omega,
      List.getElem?_cons_succ, List.getElem?_cons_succ,
      List.getElem?_append_right (by omega), hmin,
      List.getElem?_replicate, if_pos (by omega)]

/-- Witness for C6: the literal `¬P(X, c, f(a))` with `max_args = 3` has
feature vector of length 5, sign bit 1, slot codes 0/1/2, and the literal
`p(a)` gets padding -1 in its unused slots. -/
theorem embed_literal_spec_witness :
    (embed_literal "¬P(X, c, f(a))".data pxZero 3).length = 2 + 3 ∧
    (embed_literal "¬P(X, c, f(a))".data pxZero 3).head? = some 1 ∧
    (embed_literal "¬P(X, c, f(a))".data pxZero 3)[2 + 0]? = some 0 ∧
    (embed_literal "¬P(X, c, f(a))".data pxZero 3)[2 + 1]? = some 1 ∧
    (embed_literal "¬P(X, c, f(a))".data pxZero 3)[2 + 2]? = some 2 ∧
    (embed_literal "p(a)".data pxZero 3)[2 + 2]? = some (-1) := by
  have h1 := embed_literal_spec "¬P(X, c, f(a))".data pxZero 3
  have h2 := embed_literal_spec "p(a)".data pxZero 3
  refine ⟨h1.1, ?_, ?_, ?_, ?_, ?_⟩
  · rw [h1.2.1]; decide
  · rw [h1.2.2.1 0 "X".data (by decide) (by decide)]; decide
  · rw [h1.2.2.1 1 "c".data (by decide) (by decide)]; decide
  · rw [h1.2.2.1 2 "f(a)".data (by decide) (by decide)]; decide
  · exact h2.2.2.2 2 (by decide) (by decide)

/-- Witness for C9 at the parenthesis-free literal `¬P`. -/
theorem parse_literal_no_paren_witness :
    '(' ∉ ("¬P".data) ∧
    (parse_literal "¬P".data).1 = -1 ∧
    (parse_literal "¬P".data).2.1 = "P".data ∧
    (parse_literal "¬P".data).2.2 = [] := by
  refine ⟨by decide, ?_⟩
  have h := parse_literal_no_paren "¬P".data (by decide)
  refine ⟨?_, ?_, h.2.2⟩
  · rw [h.1]; decide
  · rw [h.2.1]; decide

/-! ## C4 -/

/-- C4: best-pair resolution prefers the inline `best_pair` record when
present and non-null; otherwise it dereferences an in-bounds
`best_pair_index` into `resolvable_pairs` (the lookup succeeding); and in
every remaining case it returns the absent result. -/
theorem extract_best_pair_spec (ex : Example) :
    (∀ bp, ex.best_pair = some bp → extract_best_pair ex = some bp) ∧
    (ex.best_pair = none → ∀ idx, ex.best_pair_index = some idx →
      ((0 ≤ idx ∧ idx < (ex.resolvable_pairs.length : Int)) →
        extract_best_pair ex = ex.resolvable_pairs[idx.toNat]? ∧
        (ex.resolvable_pairs[idx.toNat]?).isSome) ∧
      (¬(0 ≤ idx ∧ idx < (ex.resolvable_pairs.length : Int)) →
        extract_best_pair ex = none)) ∧
    (ex.best_pair = none → ex.best_pair_index = none →
      extract_best_pair ex = none) := by
  refine ⟨?_, ?_, ?_⟩
  · intro bp h
    simp [extract_best_pair, h]
  · intro h idx hidx
    constructor
    · intro hb
      have hlt : idx.toNat < ex.resolvable_pairs.length := by omega
      refine ⟨by simp [extract_best_pair, h, hidx, hb], ?_⟩
      simp [List.getElem?_eq_getElem hlt]
    · intro hb
      simp only [extract_best_pair, h, hidx]
      rw [if_neg hb]
  · intro h h2
    simp [extract_best_pair, h, h2]

/-- Witness for C4: all three resolution branches at concrete examples. -/
theorem extract_best_pair_spec_witness :
    extract_best_pair ⟨"w1", [], [], some (mkPair 1 1 1 1), none⟩ =
      some (mkPair 1 1 1 1) ∧
    extract_best_pair exC4w = some (mkPair 0 0 0 0) ∧
    (exC4w.resolvable_pairs[(0 : Int).toNat]?).isSome ∧
    extract_best_pair ⟨"w2", [], [mkPair 0 0 0 0], none, some 7⟩ = none := by
  have hin := ((extract_best_pair_spec exC4w).2.1 rfl 0 rfl).1 (by decide)
  refine ⟨(extract_best_pair_spec _).1 _ rfl, ?_, hin.2, ?_⟩
  · rw [hin.1]; rfl
  · exact ((extract_best_pair_spec _).2.1 rfl 7 rfl).2 (by decide)

/-! ## C10 -/

/-- C10: with no inline best pair, a negative `best_pair_index` resolves to
the absent result; it is never interpreted as wraparound indexing. -/
theorem extract_best_pair_neg_index (ex : Example) (idx : Int)
    (h1 : ex.best_pair = none) (h2 : ex.best_pair_index = some idx)
    (h3 : idx < 0) : extract_best_pair ex = none := by
  simp only [extract_best_pair, h1, h2]
  rw [if_neg (by omega)]

/-- Witness for C10 at index -1 over a one-element pair list. -/
theorem extract_best_pair_neg_index_witness :
    extract_best_pair exC10w = none :=
  extract_best_pair_neg_index exC10w (-1) rfl rfl (by decide)

/-! ## C1 -/

/-- C1 (code evaluated at the failing input): `exC1` has no resolvable best
pair, so the filter of lines 168-174 drops it, but line 193 reassigns the
unfiltered list, so the dataset keeps it and `get 0` hands it to the graph
builder. -/
theorem dataset_filter_overwritten :
    extract_best_pair exC1 = none ∧
    dataset_filtered [exC1] = [] ∧
    dataset_examples [exC1] = [exC1] ∧
    dataset_get [exC1] pxZero 3 0 =
      some (build_graph_from_example exC1 pxZero 3) :=
  ⟨rfl, rfl, rfl, rfl⟩

/-! ## C2 -/

/-- C2 (code evaluated at the failing input): the built graph for `exC2`
contains the labeled edge ((0,1), 0) but its reverse (1,0) carries label 1,
so the labeled edge set is not symmetric. -/
theorem build_graph_label_asymmetry :
    build_graph_from_example exC2 pxZero 3 = Except.ok (some gC2) ∧
    ((0, 1), 0) ∈ labeledEdges gC2 ∧
    ((1, 0), 0) ∉ labeledEdges gC2 ∧
    ((1, 0), 1) ∈ labeledEdges gC2 :=
  ⟨rfl, by decide, by decide, by decide⟩

/-! ## C3 (counterexample) -/

/-- Counterexample to C3 as stated: in `exC3self` every resolvable pair
references existing nodes and the resolved best pair is among them, yet the
graph has 1 edge (not 2 × 1) and one label-1 entry (not two), because the
pair is a self-loop. -/
theorem build_graph_selfloop_no_doubling :
    (∀ p ∈ exC3self.resolvable_pairs,
      (pairEdgeLabel exC3self.clauses (extract_best_pair exC3self)
        p).isSome) ∧
    extract_best_pair exC3self = some (mkPair 0 0 0 0) ∧
    mkPair 0 0 0 0 ∈ exC3self.resolvable_pairs ∧
    build_graph_from_example exC3self pxZero 3 = Except.ok (some gC3self) ∧
    gC3self.edge_index.length = 1 ∧
    exC3self.resolvable_pairs.length = 1 ∧
    gC3self.y.count 1 = 1 :=
  ⟨by decide, rfl, by decide, rfl, rfl, rfl, rfl⟩

/-! ## C5 -/

/-- Counterexample to C5 as stated: every resolvable pair of `exC5empty` is
malformed, but since the example has no literals at all, the builder raises
(models `torch.stack` on an empty list) instead of returning the unusable
signal. -/
theorem build_graph_empty_stack_raises :
    (∀ p ∈ exC5empty.resolvable_pairs,
      pairEdgeLabel exC5empty.clauses (extract_best_pair exC5empty) p =
        none) ∧
    build_graph_from_example exC5empty pxZero 3 =
      Except.error "stack expects a non-empty TensorList" :=
  ⟨by decide, rfl⟩

/-- C5 (amended): for every example containing at least one literal, if
every resolvable pair is malformed (null literal index or endpoint absent
from the node lookup) the builder returns the unusable signal rather than
raising. -/
theorem build_graph_all_malformed (ex : Example) (pidx : String → Nat)
    (ma : Nat) (hlit : nodeLits ex.clauses ≠ [])
    (hmal : ∀ p ∈ ex.resolvable_pairs,
      pairEdgeLabel ex.clauses (extract_best_pair ex) p = none) :
    build_graph_from_example ex pidx ma = Except.ok none := by
  have hel : edgeLabelList ex = [] := List.filterMap_eq_nil_iff.mpr hmal
  have hfeats : (nodeLits ex.clauses).map
      (fun lit => embed_literal lit.data pidx ma) ≠ [] := by
    intro hc
    exact hlit (List.map_eq_nil_iff.mp hc)
  simp [build_graph_from_example, hel, hfeats]

/-- Witness for C5: one literal, both pairs malformed, result `ok none`. -/
theorem build_graph_all_malformed_witness :
    nodeLits exC5w.clauses ≠ [] ∧
    (∀ p ∈ exC5w.resolvable_pairs,
      pairEdgeLabel exC5w.clauses (extract_best_pair exC5w) p = none) ∧
    build_graph_from_example exC5w pxZero 3 = Except.ok none :=
  ⟨by decide, by decide,
   build_graph_all_malformed exC5w pxZero 3 (by decide) (by decide)⟩

/-! ## C8 -/

theorem foldl_evalStep_le :
    ∀ (batches : List (List (Nat × Nat))) (acc : Nat × Nat),
      acc.1 ≤ acc.2 →
      (batches.foldl evalStep acc).1 ≤ (batches.foldl evalStep acc).2
  | [], _, h => h
  | b :: bs, acc, h => by
    rw [List.foldl_cons]
    apply foldl_evalStep_le bs
    unfold evalStep
    split
    · exact h
    · have := List.length_filter_le (fun pl => pl.1 == pl.2) b
      simp only
      omega

theorem foldl_evalStep_empty :
    ∀ (batches : List (List (Nat × Nat))) (acc : Nat × Nat),
      (∀ b ∈ batches, b = []) → batches.foldl evalStep acc = acc
  | [], _, _ => rfl
  | b :: bs, acc, h => by
    rw [List.foldl_cons,
      show evalStep acc b = acc from by
        rw [h b (List.mem_cons_self b bs)]; rfl]
    exact foldl_evalStep_empty bs acc
      (fun x hx => h x (List.mem_cons_of_mem b hx))

/-- C8: the accuracy returned by `evaluate` always lies in [0, 1], and is
exactly 0 when every batch the loader yields has zero labeled edges. -/
theorem evaluate_spec (batches : List (List (Nat × Nat))) :
    0 ≤ evaluate batches ∧ evaluate batches ≤ 1 ∧
    ((∀ b ∈ batches, b = []) → evaluate batches = 0) := by
  have hle := foldl_evalStep_le batches (0, 0) (le_refl 0)
  refine ⟨?_, ?_, ?_⟩
  · simp only [evaluate]
    split
    · exact div_nonneg (by positivity) (by positivity)
    · exact le_refl 0
  · simp only [evaluate]
    split
    case isTrue h =>
      rw [div_le_one (by exact_mod_cast Nat.pos_of_ne_zero h)]
      exact_mod_cast hle
    case isFalse h => exact zero_le_one
  · intro h
    simp only [evaluate, foldl_evalStep_empty batches (0, 0) h]
    rfl

/-- Witness for C8: a mixed batch list stays in [0, 1]; an all-empty batch
list gives exactly 0. -/
theorem evaluate_spec_witness :
    0 ≤ evaluate [[(1, 1), (0, 1)]] ∧ evaluate [[(1, 1), (0, 1)]] ≤ 1 ∧
    evaluate [[], []] = 0 :=
  ⟨(evaluate_spec [[(1, 1), (0, 1)]]).1,
   (evaluate_spec [[(1, 1), (0, 1)]]).2.1,
   (evaluate_spec [[], []]).2.2 (by decide)⟩

/-! ## C7 -/

theorem dict_foldl_not_mem :
    ∀ (l : List (Nat × String)) (f : String → Nat) (q : String),
      (∀ ip ∈ l, ip.2 ≠ q) → (l.foldl vocabStep f) q = f q
  | [], _, _, _ => rfl
  | ip :: l, f, q, h => by
    rw [List.foldl_cons,
      dict_foldl_not_mem l _ q
        (fun x hx => h x (List.mem_cons_of_mem ip hx))]
    unfold vocabStep
    rw [if_neg (fun he => h ip (List.mem_cons_self ip l) he.symm)]

theorem dict_foldl_get :
    ∀ (l : List String) (n : Nat) (f : String → Nat), l.Nodup →
      ∀ (i : Nat) (h : i < l.length),
      ((List.enumFrom n l).foldl vocabStep f) (l.get ⟨i, h⟩) = n + i + 1
  | [], _, _, _, _, h => absurd h (by simp)
  | p :: l, n, f, hnd, 0, h => by
    show ((List.enumFrom (n + 1) l).foldl vocabStep
      (vocabStep f (n, p))) p = n + 0 + 1
    have hp : p ∉ l := (List.nodup_cons.mp hnd).1
    rw [dict_foldl_not_mem _ _ _ (fun ip hip he => hp (by
      rw [← List.enumFrom_map_snd (n + 1) l]
      exact he ▸ List.mem_map_of_mem Prod.snd hip))]
    show (if p = p then n + 1 else f p) = n + 0 + 1
    rw [if_pos rfl]
  | p :: l, n, f, hnd, i + 1, h => by
    show ((List.enumFrom (n + 1) l).foldl vocabStep
      (vocabStep f (n, p))) ((p :: l).get ⟨i + 1, h⟩) = n + (i + 1) + 1
    have hi : i < l.length := by simpa using h
    rw [show (p :: l).get ⟨i + 1, h⟩ = l.get ⟨i, hi⟩ from rfl,
      dict_foldl_get l (n + 1) _ (List.nodup_cons.mp hnd).2 i hi]
    omega

theorem dict_of_list_not_mem (l : List String) (q : String) (h : q ∉ l) :
    dict_of_list l q = 0 := by
  apply dict_foldl_not_mem
  intro ip hip he
  apply h
  rw [← List.enumFrom_map_snd 0 l]
  exact he ▸ List.mem_map_of_mem Prod.snd hip

theorem dict_of_list_get (l : List String) (hnd : l.Nodup) (i : Nat)
    (h : i < l.length) : dict_of_list l (l.get ⟨i, h⟩) = i + 1 := by
  have hr := dict_foldl_get l 0 (fun _ => 0) hnd i h
  rw [show (0 : Nat) + i + 1 = i + 1 from by omega] at hr
  exact hr

theorem insertSorted_perm {α : Type} (le : α → α → Bool) (x : α) :
    ∀ (l : List α), (insertSorted le x l).Perm (x :: l)
  | [] => List.Perm.refl _
  | y :: ys => by
    unfold insertSorted
    split
    · exact List.Perm.refl _
    · exact ((insertSorted_perm le x ys).cons y).trans (List.Perm.swap x y ys)

theorem sortBy_perm {α : Type} (le : α → α → Bool) :
    ∀ (l : List α), (sortBy le l).Perm l
  | [] => List.Perm.refl _
  | x :: xs =>
    (insertSorted_perm le x (sortBy le xs)).trans ((sortBy_perm le xs).cons x)

theorem mem_insertSorted {α : Type} (le : α → α → Bool) (x a : α)
    (l : List α) : a ∈ insertSorted le x l ↔ a = x ∨ a ∈ l := by
  rw [(insertSorted_perm le x l).mem_iff, List.mem_cons]

theorem pairwise_insertSorted {α : Type} (le : α → α → Bool)
    (htot : ∀ a b, le a b = true ∨ le b a = true)
    (htrans : ∀ a b c, le a b = true → le b c = true → le a c = true)
    (x : α) : ∀ (l : List α), l.Pairwise (fun a b => le a b = true) →
      (insertSorted le x l).Pairwise (fun a b => le a b = true)
  | [], _ => by
    unfold insertSorted
    exact List.pairwise_singleton _ x
  | y :: ys, h => by
    unfold insertSorted
    split
    case isTrue hxy =>
      refine List.Pairwise.cons ?_ h
      intro z hz
      rcases List.mem_cons.mp hz with rfl | hz2
      · exact hxy
      · exact htrans x y z hxy ((List.pairwise_cons.mp h).1 z hz2)
    case isFalse hxy =>
      have h2 := pairwise_insertSorted le htot htrans x ys
        (List.pairwise_cons.mp h).2
      refine List.Pairwise.cons ?_ h2
      intro z hz
      rcases (mem_insertSorted le x z ys).mp hz with rfl | hz2
      · rcases htot z y with hzy | hyz
        · exact absurd hzy hxy
        · exact hyz
      · exact (List.pairwise_cons.mp h).1 z hz2

theorem pairwise_sortBy {α : Type} (le : α → α → Bool)
    (htot : ∀ a b, le a b = true ∨ le b a = true)
    (htrans : ∀ a b c, le a b = true → le b c = true → le a c = true) :
    ∀ (l : List α), (sortBy le l).Pairwise (fun a b => le a b = true)
  | [] => List.Pairwise.nil
  | x :: xs =>
    pairwise_insertSorted le htot htrans x (sortBy le xs)
      (pairwise_sortBy le htot htrans xs)

theorem charListLe_total :
    ∀ (a b : List Char), charListLe a b = true ∨ charListLe b a = true
  | [], b => Or.inl rfl
  | _ :: _, [] => Or.inr rfl
  | x :: xs, y :: ys => by
    by_cases hxy : x = y
    · subst hxy
      rcases charListLe_total xs ys with h | h
      · exact Or.inl (by unfold charListLe; rw [if_pos rfl]; exact h)
      · exact Or.inr (by unfold charListLe; rw [if_pos rfl]; exact h)
    · rcases lt_or_gt_of_ne hxy with hlt | hgt
      · refine Or.inl ?_
        unfold charListLe
        rw [if_neg hxy]
        exact decide_eq_true hlt
      · refine Or.inr ?_
        unfold charListLe
        rw [if_neg (Ne.symm hxy)]
        exact decide_eq_true hgt

theorem charListLe_trans :
    ∀ (a b c : List Char), charListLe a b = true → charListLe b c = true →
      charListLe a c = true
  | [], _, _, _, _ => rfl
  | x :: xs, [], c, h, _ => by exact absurd h (by simp [charListLe])
  | x :: xs, y :: ys, [], _, h2 => by exact absurd h2 (by simp [charListLe])
  | x :: xs, y :: ys, z :: zs, h1, h2 => by
    unfold charListLe at h1 h2 ⊢
    by_cases hxy : x = y <;> by_cases hyz : y = z
    · subst hxy; subst hyz
      rw [if_pos rfl] at h1 h2 ⊢
      exact charListLe_trans _ _ _ h1 h2
    · subst hxy
      rw [if_pos rfl] at h1
      rw [if_neg hyz] at h2 ⊢
      exact h2
    · subst hyz
      rw [if_pos rfl] at h2
      rw [if_neg hxy] at h1 ⊢
      exact h1
    · rw [if_neg hxy] at h1
      rw [if_neg hyz] at h2
      have hlt := lt_trans (of_decide_eq_true h1) (of_decide_eq_true h2)
      rw [if_neg (ne_of_lt hlt)]
      exact decide_eq_true hlt

theorem strLe_total (a b : String) : strLe a b = true ∨ strLe b a = true :=
  charListLe_total a.data b.data

theorem strLe_trans (a b c : String) :
    strLe a b = true → strLe b c = true → strLe a c = true :=
  charListLe_trans a.data b.data c.data

theorem collected_preds_nodup (exs : List Example) :
    (collected_preds exs).Nodup :=
  ((sortBy_perm strLe _).nodup_iff).mpr (List.nodup_dedup _)

theorem collected_preds_sorted (exs : List Example) :
    (collected_preds exs).Pairwise (fun a b => strLe a b = true) :=
  pairwise_sortBy strLe strLe_total strLe_trans _

/-- C7 (amended): with a non-empty explicit predicate list the vocabulary
maps absent names to 0 and (for a duplicate-free list) the i-th listed name
to i + 1; with an absent or explicitly empty list (Python truthiness makes
these identical) it maps the auto-collected names — sorted in code-point
lexicographic order — positionally to 1..N and every other name to 0. -/
theorem predicate_vocab_spec (pl : List String) (exs : List Example)
    (q : String) :
    (pl ≠ [] → q ∉ pl → predicate_to_idx (some pl) exs q = 0) ∧
    (pl ≠ [] → pl.Nodup → ∀ (i : Nat) (h : i < pl.length),
      predicate_to_idx (some pl) exs (pl.get ⟨i, h⟩) = i + 1) ∧
    predicate_to_idx (some []) exs = predicate_to_idx none exs ∧
    (collected_preds exs).Pairwise (fun a b => strLe a b = true) ∧
    (q ∉ collected_preds exs → predicate_to_idx none exs q = 0) ∧
    (∀ (i : Nat) (h : i < (collected_preds exs).length),
      predicate_to_idx none exs ((collected_preds exs).get ⟨i, h⟩) =
        i + 1) := by
  have hch : ∀ l : List String, l ≠ [] →
      chosen_pred_list (some l) exs = l := by
    intro l hl
    simp [chosen_pred_list, hl]
  refine ⟨?_, ?_, rfl, collected_preds_sorted exs, ?_, ?_⟩
  · intro hne hq
    show dict_of_list (chosen_pred_list (some pl) exs) q = 0
    rw [hch pl hne]
    exact dict_of_list_not_mem pl q hq
  · intro hne hnd i h
    show dict_of_list (chosen_pred_list (some pl) exs) _ = i + 1
    rw [hch pl hne]
    exact dict_of_list_get pl hnd i h
  · intro hq
    exact dict_of_list_not_mem _ q hq
  · intro i h
    exact dict_of_list_get _ (collected_preds_nodup exs) i h

/-- Witness for C7: vocabulary lookups with an explicit list ["b", "a"] and
with auto-collection from literals mentioning `q` and `p`. -/
theorem predicate_vocab_spec_witness :
    predicate_to_idx (some ["b", "a"]) [exC7w] "z" = 0 ∧
    predicate_to_idx (some ["b", "a"]) [exC7w] "b" = 1 ∧
    predicate_to_idx (some ["b", "a"]) [exC7w] "a" = 2 ∧
    predicate_to_idx none [exC7w] "p" = 1 ∧
    predicate_to_idx none [exC7w] "q" = 2 ∧
    predicate_to_idx none [exC7w] "z" = 0 := by
  refine ⟨(predicate_vocab_spec ["b", "a"] [exC7w] "z").1 (by decide)
      (by decide),
    (predicate_vocab_spec ["b", "a"] [exC7w] "b").2.1 (by decide) (by decide)
      0 (by decide),
    (predicate_vocab_spec ["b", "a"] [exC7w] "a").2.1 (by decide) (by decide)
      1 (by decide),
    (predicate_vocab_spec [] [exC7w] "p").2.2.2.2.2 0 (by decide),
    (predicate_vocab_spec [] [exC7w] "q").2.2.2.2.2 1 (by decide),
    (predicate_vocab_spec [] [exC7w] "z").2.2.2.2.1 (by decide)⟩

/-- Counterexample to C7 as stated: an explicitly supplied empty predicate
list should give an empty vocabulary (everything maps to the reserved ID
0), but `p` gets ID 1 because Python truthiness treats the empty list as
absent and auto-collects. -/
theorem predicate_vocab_empty_list_counterexample :
    predicate_to_idx (some []) [exC7] "p" = 1 := by decide

/-! ## C3 (amended) -/

theorem length_filterMap_of_isSome {α β : Type} (f : α → Option β) :
    ∀ (l : List α), (∀ a ∈ l, (f a).isSome) →
      (l.filterMap f).length = l.length
  | [], _ => rfl
  | a :: l, h => by
    rcases Option.isSome_iff_exists.mp (h a (List.mem_cons_self a l)) with
      ⟨b, hb⟩
    rw [List.filterMap_cons, hb]
    simp only [List.length_cons]
    rw [length_filterMap_of_isSome f l
      (fun x hx => h x (List.mem_cons_of_mem a hx))]

theorem filterMap_eq_map_of_isSome {α β : Type} (f : α → Option β) (d : β) :
    ∀ (l : List α), (∀ a ∈ l, (f a).isSome) →
      l.filterMap f = l.map (fun a => (f a).getD d)
  | [], _ => rfl
  | a :: l, h => by
    rcases Option.isSome_iff_exists.mp (h a (List.mem_cons_self a l)) with
      ⟨b, hb⟩
    rw [List.filterMap_cons, hb, List.map_cons, hb]
    simp only [Option.getD_some]
    rw [filterMap_eq_map_of_isSome f d l
      (fun x hx => h x (List.mem_cons_of_mem a hx))]

theorem dedupAdj_eq_of_nodup {α : Type} [DecidableEq α] :
    ∀ (l : List α), l.Nodup → dedupAdj l = l
  | [], _ => rfl
  | [_], _ => rfl
  | x :: y :: r, h => by
    have hxy : x ≠ y := fun he =>
      (List.nodup_cons.mp h).1 (he ▸ List.mem_cons_self y r)
    unfold dedupAdj
    rw [if_neg hxy, dedupAdj_eq_of_nodup (y :: r) (List.nodup_cons.mp h).2]

theorem pairEdgeLabel_isSome_elim (clauses : List Clause)
    (best : Option Pair) (p : Pair)
    (h : (pairEdgeLabel clauses best p).isSome) :
    ∃ src dst,
      nodeMapFind clauses (p.clauseA_index, p.literalA_index) = some src ∧
      nodeMapFind clauses (p.clauseB_index, p.literalB_index) = some dst ∧
      pairEdgeLabel clauses best p =
        some ((src, dst), if isBest best p then 1 else 0) ∧
      p.literalA_index.isSome ∧ p.literalB_index.isSome := by
  unfold pairEdgeLabel at h ⊢
  split at h
  case isTrue => simp at h
  case isFalse hnn =>
    cases hA : nodeMapFind clauses (p.clauseA_index, p.literalA_index) with
    | none => simp [hA] at h
    | some src =>
      cases hB : nodeMapFind clauses (p.clauseB_index, p.literalB_index) with
      | none => simp [hA, hB] at h
      | some dst =>
        refine ⟨src, dst, rfl, rfl, ?_, ?_, ?_⟩
        · rw [if_neg hnn]
        · exact Option.ne_none_iff_isSome.mp (fun hc => hnn (Or.inl hc))
        · exact Option.ne_none_iff_isSome.mp (fun hc => hnn (Or.inr hc))

theorem nodeMapFind_some (clauses : List Clause) (i a : Int) :
    nodeMapFind clauses (some i, some a) =
      if 0 ≤ i ∧ 0 ≤ a then
        match clauses[i.toNat]? with
        | some c =>
          if a.toNat < c.lits.length then
            some (clauseOffset clauses i.toNat + a.toNat)
          else none
        | none => none
      else none := rfl

theorem nodeLits_ne_nil_of_find (clauses : List Clause)
    (k : Option Int × Option Int) (v : Nat)
    (h : nodeMapFind clauses k = some v) : nodeLits clauses ≠ [] := by
  rcases k with ⟨oi, oa⟩
  cases oi with
  | none => simp [nodeMapFind] at h
  | some i =>
    cases oa with
    | none => simp [nodeMapFind] at h
    | some a =>
      rw [nodeMapFind_some] at h
      split at h
      · cases hc : clauses[i.toNat]? with
        | none => simp [hc] at h
        | some c =>
          simp only [hc] at h
          split at h
          · rename_i hlt
            have hcm : c ∈ clauses := by
              rcases List.getElem?_eq_some.mp hc with ⟨hlt2, heq⟩
              exact heq ▸ List.getElem_mem hlt2
            intro hnil
            have hall := List.flatten_eq_nil_iff.mp hnil
            have hclits : c.lits = [] :=
              hall c.lits (List.mem_map_of_mem (fun cl => cl.lits) hcm)
            rw [hclits] at hlt
            simp at hlt
          · simp at h
      · simp at h

theorem pair_eq_iff (p q : Pair) : p = q ↔
    p.clauseA_index = q.clauseA_index ∧
    p.literalA_index = q.literalA_index ∧
    p.clauseB_index = q.clauseB_index ∧
    p.literalB_index = q.literalB_index := by
  cases p
  cases q
  simp [Pair.mk.injEq]

theorem isBest_eq_iff (bp p : Pair) (hA : bp.literalA_index.isSome)
    (hB : bp.literalB_index.isSome) :
    isBest (some bp) p = true ↔ p = bp := by
  rw [pair_eq_iff]
  unfold isBest
  simp only [hA, hB, Bool.true_and, Bool.and_eq_true, decide_eq_true_eq]
  tauto

/-- C3 (amended): for every example whose every resolvable pair references
an existing node (no null indices, no dangling references) and whose
resolved best pair occurs among its pairs, and whose derived forward edges
are pairwise distinct, contain no self-loop and contain no mutually
reversed edges, the builder returns a graph with exactly
`2 × valid_pair_count` edges of which exactly two carry label 1. -/
theorem build_graph_doubling (ex : Example) (pidx : String → Nat) (ma : Nat)
    (bp : Pair)
    (hbest : extract_best_pair ex = some bp)
    (hmem : bp ∈ ex.resolvable_pairs)
    (hvalid : ∀ p ∈ ex.resolvable_pairs,
      (pairEdgeLabel ex.clauses (extract_best_pair ex) p).isSome)
    (hnodup : (fwdEdges ex).Nodup)
    (_hnoself : ∀ e ∈ fwdEdges ex, e.1 ≠ e.2)
    (hnorev : ∀ e ∈ fwdEdges ex, (e.2, e.1) ∉ fwdEdges ex) :
    ∃ g, build_graph_from_example ex pidx ma = Except.ok (some g) ∧
      g.edge_index.length = 2 * ex.resolvable_pairs.length ∧
      g.y.count 1 = 2 := by
  have hmap := filterMap_eq_map_of_isSome
    (pairEdgeLabel ex.clauses (extract_best_pair ex)) (((0, 0), 0))
    ex.resolvable_pairs hvalid
  have hfe : fwdEdges ex = ex.resolvable_pairs.map (fun a =>
      (((pairEdgeLabel ex.clauses (extract_best_pair ex) a).getD
        ((0, 0), 0)).1)) := by
    unfold fwdEdges edgeLabelList
    rw [hmap, List.map_map]
    rfl
  have hlabeq : (edgeLabelList ex).map (fun q => q.2) =
      ex.resolvable_pairs.map (fun a =>
        (((pairEdgeLabel ex.clauses (extract_best_pair ex) a).getD
          ((0, 0), 0)).2)) := by
    unfold edgeLabelList
    rw [hmap, List.map_map]
    rfl
  have hpnodup : ex.resolvable_pairs.Nodup :=
    List.Nodup.of_map _ (hfe ▸ hnodup)
  -- the best pair's own row
  rcases pairEdgeLabel_isSome_elim ex.clauses (extract_best_pair ex) bp
    (hvalid bp hmem) with ⟨sA, sB, hbA, _, _, hbpA, hbpB⟩
  -- label count
  have hcount1 : ((edgeLabelList ex).map (fun q => q.2)).count 1 = 1 := by
    rw [hlabeq, List.count_eq_countP, List.countP_map]
    have hstep1 : List.countP ((fun x => x == 1) ∘ fun a =>
        (((pairEdgeLabel ex.clauses (extract_best_pair ex) a).getD
          ((0, 0), 0)).2)) ex.resolvable_pairs =
        List.countP (fun p => isBest (some bp) p) ex.resolvable_pairs := by
      apply List.countP_congr
      intro p hp
      rcases pairEdgeLabel_isSome_elim ex.clauses (extract_best_pair ex) p
        (hvalid p hp) with ⟨s, t, _, _, hform, _, _⟩
      rw [hbest] at hform
      simp only [Function.comp_apply, hform, hbest, Option.getD_some]
      by_cases hib : isBest (some bp) p = true <;> simp [hib]
    have hstep2 : List.countP (fun p => isBest (some bp) p)
        ex.resolvable_pairs =
        List.countP (fun x => x == bp) ex.resolvable_pairs := by
      apply List.countP_congr
      intro x _
      rw [isBest_eq_iff bp x hbpA hbpB, beq_iff_eq]
    rw [hstep1, hstep2, ← List.count_eq_countP]
    exact List.count_eq_one_of_mem hpnodup hmem
  -- lengths
  have hellen : (edgeLabelList ex).length = ex.resolvable_pairs.length := by
    unfold edgeLabelList
    exact length_filterMap_of_isSome _ _ hvalid
  have hfelen : (fwdEdges ex).length = ex.resolvable_pairs.length := by
    unfold fwdEdges
    rw [List.length_map]
    exact hellen
  have hlablen : ((edgeLabelList ex).map (fun q => q.2)).length =
      ex.resolvable_pairs.length := by
    rw [List.length_map]
    exact hellen
  -- the symmetrized edge list
  have hswap_inj : Function.Injective (fun e : Nat × Nat => (e.2, e.1)) := by
    intro a b hab
    rcases a with ⟨x, y⟩
    rcases b with ⟨u, v⟩
    simp only [Prod.mk.injEq] at hab
    simp [hab.1, hab.2]
  have hu_nodup : (fwdEdges ex ++
      (fwdEdges ex).map (fun e => (e.2, e.1))).Nodup := by
    rw [List.nodup_append]
    refine ⟨hnodup, List.Nodup.map hswap_inj hnodup, ?_⟩
    intro a ha hamem
    rcases List.mem_map.mp hamem with ⟨b, hb, heq⟩
    subst heq
    exact hnorev _ ha (by simpa using hb)
  have hsorted_nodup : (sortBy edgeLe (fwdEdges ex ++
      (fwdEdges ex).map (fun e => (e.2, e.1)))).Nodup :=
    ((sortBy_perm edgeLe _).nodup_iff).mpr hu_nodup
  have hei_eq : to_undirected (fwdEdges ex) = sortBy edgeLe (fwdEdges ex ++
      (fwdEdges ex).map (fun e => (e.2, e.1))) := by
    unfold to_undirected
    exact dedupAdj_eq_of_nodup _ hsorted_nodup
  have heilen : (to_undirected (fwdEdges ex)).length =
      2 * ex.resolvable_pairs.length := by
    rw [hei_eq, (sortBy_perm edgeLe _).length_eq]
    simp only [List.length_append, List.length_map, hfelen]
    omega
  -- feats and edges are nonempty
  have hfeats : ¬((nodeLits ex.clauses).map
      (fun lit => embed_literal lit.data pidx ma) = []) := by
    intro hc
    exact nodeLits_ne_nil_of_find ex.clauses _ sA hbA
      (List.map_eq_nil_iff.mp hc)
  have hedgesne : ¬((edgeLabelList ex).map (fun q => q.1) = []) := by
    intro hc
    have : (edgeLabelList ex) = [] := List.map_eq_nil_iff.mp hc
    rw [this] at hellen
    have := List.length_pos_of_mem hmem
    simp at hellen
    omega
  -- the padding slice reproduces the labels
  have hy : pySliceTo (((to_undirected (fwdEdges ex)).length : Int) -
        ((fwdEdges ex).length : Int))
      ((edgeLabelList ex).map (fun q => q.2)) =
      (edgeLabelList ex).map (fun q => q.2) := by
    rw [heilen, hfelen]
    unfold pySliceTo
    rw [if_pos (by omega),
      show ((2 * ex.resolvable_pairs.length : Nat) : Int) -
          ((ex.resolvable_pairs.length : Nat) : Int) =
          ((ex.resolvable_pairs.length : Nat) : Int) from by omega,
      Int.toNat_natCast, ← hlablen, List.take_length]
  refine ⟨⟨(nodeLits ex.clauses).map
      (fun lit => embed_literal lit.data pidx ma),
    to_undirected (fwdEdges ex),
    (edgeLabelList ex).map (fun q => q.2) ++
      (edgeLabelList ex).map (fun q => q.2)⟩, ?_, heilen, ?_⟩
  · simp only [build_graph_from_example]
    rw [if_neg hfeats, if_neg hedgesne]
    rw [show ((to_undirected ((edgeLabelList ex).map fun q => q.1)).length :
        Int) - (((edgeLabelList ex).map fun q => q.1).length : Int) =
        ((to_undirected (fwdEdges ex)).length : Int) -
          ((fwdEdges ex).length : Int) from rfl]
    rw [show to_undirected ((edgeLabelList ex).map fun q => q.1) =
        to_undirected (fwdEdges ex) from rfl]
    rw [hy]
  · rw [List.count_append, hcount1]

/-- Witness for C3 at a two-pair example: 4 edges, two label-1 entries. -/
theorem build_graph_doubling_witness :
    ∃ g, build_graph_from_example exC3w pxZero 3 = Except.ok (some g) ∧
      g.edge_index.length = 2 * exC3w.resolvable_pairs.length ∧
      g.y.count 1 = 2 :=
  build_graph_doubling exC3w pxZero 3 (mkPair 0 0 0 1) rfl (by decide)
    (by decide) (by decide) (by decide) (by decide)

end ResolutionGNN
